import Mathlib

/-!
Verification of the libbitcoin-node initial-sync core against its
specification.  The definitions below are a shallow embedding of:

  * src/src/protocol_header_sync.cpp  (header-sync protocol)
  * src/src/session_block_sync.cpp    (block-sync session)
  * src/console/dispatch.cpp          (console command loop)

Hashes are modelled as natural numbers standing for 32-byte digests; a
block header carries its previous-block hash and its own hash (the value
`block.hash()` computes).  All machine-integer arithmetic that can wrap
(`size_t` subtraction in `current_rate`) is modelled with an explicit
`% 2 ^ 64`.
-/

/-- A 32-byte digest, modelled abstractly as a natural number. -/
abbrev Hash := Nat

/-- A configured checkpoint: `(height, hash)` anchor.  (bc::config::checkpoint) -/
structure Checkpoint where
  height : Nat
  hash : Hash
deriving DecidableEq, Repr

/-- A block header as delivered in a `headers` message: its claimed parent
hash (`previous_block_hash`) and its own digest (the value `block.hash()`
computes; modelled as a field since the digest function is opaque here). -/
structure Header where
  previous_block_hash : Hash
  hash : Hash
deriving DecidableEq, Repr

/-- The error codes that the sync core produces or inspects. -/
inductive Code
  | success
  | channel_stopped
  | channel_timeout
  | previous_block_invalid
  | operation_failed
  | send_failed
deriving DecidableEq, Repr

/-- Modelled from the spec: `checkpoint::validate(hash, height, checkpoints)`
from the libbitcoin config library is not under src/.  Spec 4.1: "returns
true iff either no checkpoint exists at that exact height, or the one at
that height matches `hash`.  Checkpoints at other heights impose no
constraint on this call." -/
def validate (h : Hash) (height : Nat) (checkpoints : List Checkpoint) : Bool :=
  checkpoints.all (fun cp => decide (cp.height ≠ height) || decide (cp.hash = h))

/-- src/src/protocol_header_sync.cpp:41 `static constexpr size_t full_headers = 2000;` -/
def full_headers : Nat := 2000

/-- `hashes_.back()` (hashes_ is never empty by the constructor assert;
the default is irrelevant). -/
def back (l : List Hash) : Hash := l.getLastD 0

/-- `std::find` over the hash list followed by `erase(++match, end())`:
returns the shortest prefix of the list ending at (and keeping) the first
element equal to `h`, or `none` when `h` does not occur.
(src/src/protocol_header_sync.cpp:131-136) -/
def truncAfter (h : Hash) : List Hash → Option (List Hash)
  | [] => none
  | x :: xs => if x = h then some [x] else (truncAfter h xs).map (fun l => x :: l)

/-- `std::find`: index of the first occurrence satisfying the predicate. -/
def findIdxO (p : Hash → Bool) : List Hash → Option Nat
  | [] => none
  | x :: xs => if p x then some 0 else (findIdxO p xs).map (· + 1)

/-- The loop body of `protocol_header_sync::rollback`: walk the given
checkpoint sequence in order (the caller passes the configured list
reversed, i.e. highest height first); at the first checkpoint whose hash
occurs in the list, truncate just after that element; if none occurs,
`hashes_.resize(1)` keeps only the starting hash.
(src/src/protocol_header_sync.cpp:125-141) -/
def rollbackLoop (hashes : List Hash) : List Checkpoint → List Hash
  | [] => hashes.take 1
  | cp :: rest =>
    match truncAfter cp.hash hashes with
    | some l => l
    | none => rollbackLoop hashes rest

/-- `protocol_header_sync::rollback` (src/src/protocol_header_sync.cpp:125-141):
iterates `checkpoints_.rbegin() .. rend()`, i.e. the reversed list. -/
def rollback (checkpoints : List Checkpoint) (hashes : List Hash) : List Hash :=
  rollbackLoop hashes checkpoints.reverse

/-- `protocol_header_sync::next_height` (src/src/protocol_header_sync.cpp:120-123):
`hashes_.size() + first_height_`. -/
def next_height (first_height : Nat) (hashes : List Hash) : Nat :=
  hashes.length + first_height

/-- `protocol_header_sync::merge_headers` (src/src/protocol_header_sync.cpp:144-162).
`previous` starts as `hashes_.back()`; each header must link to `previous`
and pass checkpoint validation at the height it would occupy
(`next_height()` over the partially grown list); on the first failure the
list is rolled back and the merge reports failure, otherwise the header's
hash is appended and the scan continues. -/
def merge_headers (checkpoints : List Checkpoint) (first_height : Nat)
    (hashes : List Hash) (previous : Hash) : List Header → Bool × List Hash
  | [] => (true, hashes)
  | b :: rest =>
    if b.previous_block_hash ≠ previous ∨
        validate b.hash (next_height first_height hashes) checkpoints = false
    then (false, rollback checkpoints hashes)
    else merge_headers checkpoints first_height (hashes ++ [b.hash]) b.hash rest

/-- `protocol_header_sync::target` (src/src/protocol_header_sync.cpp:60-66):
`current_block = first_height + headers.size() - 1`;
result is `current_block` when there are no checkpoints, otherwise
`max(checkpoints.back().height(), current_block)`. -/
def target (first_height : Nat) (headers : List Hash)
    (checkpoints : List Checkpoint) : Nat :=
  let current_block := first_height + headers.length - 1
  if checkpoints.isEmpty then current_block
  else max (checkpoints.getLastD ⟨0, 0⟩).height current_block

/-- What a call of `protocol_header_sync::handle_receive` does besides
updating the shared hash list: nothing (stopped channel), signal
completion with a code, or issue another `get_headers` request. -/
inductive ReceiveAction
  | noop
  | complete (c : Code)
  | sendGetHeaders
deriving DecidableEq, Repr

/-- `protocol_header_sync::handle_receive` (src/src/protocol_header_sync.cpp:164-199):
returns the action taken and the hash list after the call. -/
def handle_receive (stopped : Bool) (ec : Code) (checkpoints : List Checkpoint)
    (first_height target_height : Nat) (hashes : List Hash)
    (msg : List Header) : ReceiveAction × List Hash :=
  if stopped then (.noop, hashes)
  else if ec ≠ Code.success then (.complete ec, hashes)
  else
    let r := merge_headers checkpoints first_height hashes (back hashes) msg
    if r.1 = false then (.complete Code.previous_block_invalid, r.2)
    else if full_headers ≤ msg.length then (.sendGetHeaders, r.2)
    else if target_height < next_height first_height r.2 then
      (.complete Code.success, r.2)
    else (.complete Code.operation_failed, r.2)

/-- `size_t` subtraction: wraps modulo `2 ^ 64` (both operands are sizes,
hence below `2 ^ 64`). -/
def size_t_sub (a b : Nat) : Nat := (a + (2 ^ 64 - b)) % 2 ^ 64

/-- `protocol_header_sync::current_rate` (src/src/protocol_header_sync.cpp:201-204):
`(hashes_.size() - start_size_) / current_second_` over `size_t`. -/
def current_rate (size start_size current_second : Nat) : Nat :=
  size_t_sub size start_size / current_second

/-- Outcome of one `protocol_header_sync::handle_event` call. -/
inductive TimerAction
  | complete (c : Code)
  | reset_timer
deriving DecidableEq, Repr

/-- `protocol_header_sync::handle_event` (src/src/protocol_header_sync.cpp:207-238):
returns the value of `current_second_` after the call together with the
action taken. -/
def handle_event (ec : Code) (size start_size minimum_rate current_second : Nat) :
    Nat × TimerAction :=
  if ec = Code.channel_stopped then (current_second, .complete ec)
  else if ec ≠ Code.success ∧ ec ≠ Code.channel_timeout then (current_second, .complete ec)
  else
    let second := current_second + 1
    if current_rate size start_size second < minimum_rate then
      (second, .complete Code.channel_timeout)
    else (second, .reset_timer)

/-- The hash list after a run of `handle_receive` calls (one per received
`headers` message) on a live channel: the session-visible state evolution
of the header-sync protocol. -/
def syncStates (checkpoints : List Checkpoint) (first_height target_height : Nat)
    (hashes : List Hash) (msgs : List (List Header)) : List Hash :=
  msgs.foldl
    (fun hs msg =>
      (handle_receive false Code.success checkpoints first_height target_height
        hs msg).2)
    hashes

/-- What `session_block_sync::handle_complete` does after updating `votes_`:
dial another peer or finish the session with `success`. -/
inductive SessionAction
  | redial
  | completeSession
deriving DecidableEq, Repr

/-- `session_block_sync::handle_complete` (src/src/session_block_sync.cpp:145-160):
`if (!ec) ++votes_; if (ec || votes_ < quorum) new_connection else
handler(error::success)`.  Returns the updated vote count and the action. -/
def handle_complete (ec : Code) (votes quorum : Nat) : Nat × SessionAction :=
  let v := if ec = Code.success then votes + 1 else votes
  if ec ≠ Code.success ∨ v < quorum then (v, .redial) else (v, .completeSession)

/-- Feed a sequence of per-peer protocol completion codes through
`handle_complete`, starting from the given vote count; `true` iff the
session reaches `handler(error::success)`. -/
def sessionRun (quorum : Nat) : Nat → List Code → Bool
  | _, [] => false
  | votes, ec :: rest =>
    let r := handle_complete ec votes quorum
    if r.2 = SessionAction.redial then sessionRun quorum r.1 rest else true

/-- Number of `success` codes in a completion sequence. -/
def countSuccess (codes : List Code) : Nat :=
  codes.countP (fun c => decide (c = Code.success))

/-- The externally observable events of one block-sync connection attempt:
the connect fails (`handle_connect` with an error,
src/src/session_block_sync.cpp:109-115), or the peer's block-sync protocol
completes with a code (`handle_complete`; a channel-start failure is
"treated just like a completion failure", src/src/session_block_sync.cpp:129-133,
so it is the `protoComplete` case with a non-success code). -/
inductive BsEvent
  | connectFailed
  | protoComplete (c : Code)
deriving DecidableEq, Repr

/-- Vote count and number of connection attempts currently in flight in
the block-sync session. -/
structure BsState where
  votes : Nat
  inFlight : Nat
deriving DecidableEq, Repr

/-- One event of the block-sync session.  Every handler in
src/src/session_block_sync.cpp consumes the attempt that fired it and
issues at most one replacement dial (`new_connection`): a failed connect
redials (line 113), and `handle_complete` redials unless the quorum is
reached (lines 152-159). -/
def bsStep (quorum : Nat) (st : BsState) (e : BsEvent) : BsState :=
  if st.inFlight = 0 then st
  else
    match e with
    | .connectFailed => { st with inFlight := st.inFlight - 1 + 1 }
    | .protoComplete c =>
      let r := handle_complete c st.votes quorum
      { votes := r.1,
        inFlight := st.inFlight - 1 +
          (if r.2 = SessionAction.redial then 1 else 0) }

/-- After `session_block_sync::handle_started` (src/src/session_block_sync.cpp:62-75):
`votes_ = 0` and exactly one `new_connection` call has been issued. -/
def bsInit : BsState := { votes := 0, inFlight := 1 }

/-- The block-sync session state after a sequence of connection events. -/
def bsRun (quorum : Nat) (evs : List BsEvent) : BsState :=
  evs.foldl (bsStep quorum) bsInit

/-- The C locale whitespace set used by `boost::trim_copy`. -/
def isSpaceC (c : Char) : Bool :=
  c == ' ' || c == '\t' || c == '\n' || c == '\x0b' || c == '\x0c' || c == '\r'

/-- `boost::trim_copy`: drop whitespace from both ends of the line. -/
def trim_copy (l : List Char) : List Char :=
  ((l.dropWhile isSpaceC).reverse.dropWhile isSpaceC).reverse

/-- The four characters of the C++ string literal `"\0x03"`:
NUL (the `\0` escape) followed by the characters `x`, `0`, `3`. -/
def stopLiteral : List Char := ['\x00', 'x', '0', '3']

/-- The characters of the literal `"stop"`. -/
def stopWord : List Char := ['s', 't', 'o', 'p']

/-- The value a `const char*` literal denotes in a comparison against a
`std::string`: `operator==(const std::string&, const char*)` measures the
right-hand side with `strlen`, so the array is cut at its first NUL. -/
def cString (lit : List Char) : List Char :=
  lit.takeWhile (fun c => c != '\x00')

/-- The loop-exit test of the console loop
(src/console/dispatch.cpp:241): `command == "\0x03" || trimmed == "stop"`,
with the C++ semantics of comparing a `std::string` to a `const char*`
literal (the literal is cut at its embedded NUL). -/
def isStopCommand (command : List Char) : Bool :=
  decide (command = cString stopLiteral) || decide (trim_copy command = stopWord)

/-- What the console loop does with one input line: break out of the loop
and shut the node down, or treat the trimmed line as a payment-address
query (src/console/dispatch.cpp:236-262). -/
inductive ConsoleAction
  | shutdown
  | query (addr : List Char)
deriving DecidableEq, Repr

/-- One iteration of the console command loop (src/console/dispatch.cpp:236-262). -/
def consoleStep (command : List Char) : ConsoleAction :=
  if isStopCommand command then .shutdown else .query (trim_copy command)

/-- A well-linked chain of `n` headers whose first parent is `p` and whose
hashes are `p+1, p+2, …` — concrete input material for full-batch tests. -/
def chainFrom (p : Nat) : Nat → List Header
  | 0 => []
  | n + 1 => { previous_block_hash := p, hash := p + 1 } :: chainFrom (p + 1) n

-- Quick sanity checks of the embedding on the spec's concrete scenarios.

-- S2: linkage break with no checkpoints rolls back to the seed.
example :
    handle_receive false Code.success [] 0 3 [7]
      [⟨7, 8⟩, ⟨9, 10⟩]
      = (ReceiveAction.complete Code.previous_block_invalid, [7]) := by decide

-- S3: rollback keeps the prefix through the highest present checkpoint hash.
example : rollback [⟨2, 5⟩] [3, 4, 5, 6] = [3, 4, 5] := by decide

-- S5: 30 hashes over 5 seconds against minimum rate 10 evicts the channel.
example :
    handle_event Code.success 30 0 10 4
      = (5, TimerAction.complete Code.channel_timeout) := by decide

-- S6: quorum 2, peers succeed/fail/succeed — session completes at the third.
example : sessionRun 2 0 [Code.success, Code.channel_timeout, Code.success] = true := by
  decide

-- The empty console line satisfies the loop-exit test (the "\0x03" literal
-- is cut at its NUL, so the comparison is against the empty string).
example : consoleStep [] = ConsoleAction.shutdown := by decide

-- A line that really contains the four bytes NUL,'x','0','3' does not stop.
example : consoleStep stopLiteral = ConsoleAction.query stopLiteral := by decide

/-! ### Lemmas about `truncAfter` and `rollback` -/

theorem truncAfter_eq_none {h : Hash} {L : List Hash} :
    truncAfter h L = none ↔ h ∉ L := by
  induction L with
  | nil => simp [truncAfter]
  | cons x xs ih =>
    by_cases hx : x = h
    · subst hx; simp [truncAfter]
    · simp [truncAfter, hx, ih, Ne.symm hx]

theorem truncAfter_isSome_of_mem {h : Hash} {L : List Hash} (hm : h ∈ L) :
    ∃ l, truncAfter h L = some l := by
  rcases he : truncAfter h L with _ | l
  · exact absurd (truncAfter_eq_none.mp he) (by simpa using hm)
  · exact ⟨l, rfl⟩

theorem truncAfter_eq_some {h : Hash} {L l : List Hash}
    (he : truncAfter h L = some l) :
    ∃ i, findIdxO (fun x => x == h) L = some i ∧ l = L.take (i + 1) := by
  induction L generalizing l with
  | nil => simp [truncAfter] at he
  | cons x xs ih =>
    by_cases hx : x = h
    · subst hx
      simp [truncAfter] at he
      exact ⟨0, by simp [findIdxO], by simp [← he]⟩
    · simp [truncAfter, hx] at he
      rcases he with ⟨l', hl', rfl⟩
      rcases ih hl' with ⟨i, hi, rfl⟩
      exact ⟨i + 1, by simp [findIdxO, hx, hi], by simp [List.take_cons]⟩

theorem truncAfter_self {h : Hash} {L l : List Hash}
    (he : truncAfter h L = some l) : truncAfter h l = some l := by
  induction L generalizing l with
  | nil => simp [truncAfter] at he
  | cons x xs ih =>
    by_cases hx : x = h
    · subst hx
      simp [truncAfter] at he
      simp [← he, truncAfter]
    · simp [truncAfter, hx] at he
      rcases he with ⟨l', hl', rfl⟩
      simp [truncAfter, hx, ih hl']

theorem truncAfter_ne_nil {h : Hash} {L l : List Hash}
    (he : truncAfter h L = some l) : l ≠ [] := by
  induction L generalizing l with
  | nil => simp [truncAfter] at he
  | cons x xs ih =>
    by_cases hx : x = h
    · subst hx; simp [truncAfter] at he; simp [← he]
    · simp [truncAfter, hx] at he
      rcases he with ⟨l', _, rfl⟩
      simp

theorem rollbackLoop_eq_take (cl : List Checkpoint) (L : List Hash) :
    ∃ m, rollbackLoop L cl = L.take m := by
  induction cl with
  | nil => exact ⟨1, rfl⟩
  | cons cp rest ih =>
    rcases he : truncAfter cp.hash L with _ | l
    · simpa [rollbackLoop, he] using ih
    · rcases truncAfter_eq_some he with ⟨i, _, rfl⟩
      exact ⟨i + 1, by simp [rollbackLoop, he]⟩

theorem rollbackLoop_idem (cl : List Checkpoint) (L : List Hash) :
    rollbackLoop (rollbackLoop L cl) cl = rollbackLoop L cl := by
  induction cl generalizing L with
  | nil =>
    show (L.take 1).take 1 = L.take 1
    simp [List.take_take]
  | cons cp rest ih =>
    rcases he : truncAfter cp.hash L with _ | l
    · have hmem : cp.hash ∉ L := truncAfter_eq_none.mp he
      rcases rollbackLoop_eq_take rest L with ⟨m, hm⟩
      have hmem' : cp.hash ∉ rollbackLoop L rest := by
        rw [hm]; exact fun hc => hmem (List.take_subset m L hc)
      simp only [rollbackLoop, he]
      simp only [rollbackLoop, truncAfter_eq_none.mpr hmem']
      exact ih L
    · simp only [rollbackLoop, he]
      simp only [rollbackLoop, truncAfter_self he]

/-- C7 as stated: rollback is idempotent on every hash list and
checkpoint list. -/
theorem rollback_idem (checkpoints : List Checkpoint) (L : List Hash) :
    rollback checkpoints (rollback checkpoints L) = rollback checkpoints L :=
  rollbackLoop_idem checkpoints.reverse L

theorem rollbackLoop_ne_nil {cl : List Checkpoint} {L : List Hash}
    (h : L ≠ []) : rollbackLoop L cl ≠ [] := by
  induction cl with
  | nil =>
    rcases L with _ | ⟨x, xs⟩
    · exact absurd rfl h
    · show ((x :: xs).take 1) ≠ []
      simp
  | cons cp rest ih =>
    rcases he : truncAfter cp.hash L with _ | l
    · simpa [rollbackLoop, he] using ih
    · simpa [rollbackLoop, he] using truncAfter_ne_nil he

theorem rollback_ne_nil {checkpoints : List Checkpoint} {L : List Hash}
    (h : L ≠ []) : rollback checkpoints L ≠ [] :=
  rollbackLoop_ne_nil h

theorem rollbackLoop_of_none {cl : List Checkpoint} {L : List Hash}
    (h : ∀ cp ∈ cl, cp.hash ∉ L) : rollbackLoop L cl = L.take 1 := by
  induction cl with
  | nil => rfl
  | cons cp rest ih =>
    have hcp : cp.hash ∉ L := h cp (by simp)
    simp only [rollbackLoop, truncAfter_eq_none.mpr hcp]
    exact ih fun c hc => h c (by simp [hc])

/-- The rollback walk over a height-descending checkpoint sequence stops at
the highest-height checkpoint whose hash occurs in the list and truncates
just after the first occurrence of that hash. -/
theorem rollbackLoop_of_mem {cl : List Checkpoint} {L : List Hash}
    (hdesc : cl.Pairwise (fun a b => b.height < a.height))
    {cp0 : Checkpoint} (h0 : cp0 ∈ cl) (h0m : cp0.hash ∈ L) :
    ∃ cp ∈ cl, cp.hash ∈ L
      ∧ (∀ cp2 ∈ cl, cp2.hash ∈ L → cp2.height ≤ cp.height)
      ∧ ∃ i, findIdxO (fun x => x == cp.hash) L = some i
          ∧ rollbackLoop L cl = L.take (i + 1) := by
  induction cl with
  | nil => simp at h0
  | cons cp rest ih =>
    rw [List.pairwise_cons] at hdesc
    rcases he : truncAfter cp.hash L with _ | l
    · have hcp : cp.hash ∉ L := truncAfter_eq_none.mp he
      have h0r : cp0 ∈ rest := by
        rcases List.mem_cons.mp h0 with rfl | h
        · exact absurd h0m hcp
        · exact h
      rcases ih hdesc.2 h0r with ⟨c, hc, hcm, hmax, i, hi, hr⟩
      refine ⟨c, by simp [hc], hcm, ?_, i, hi, ?_⟩
      · intro c2 hc2 hc2m
        rcases List.mem_cons.mp hc2 with rfl | h
        · exact absurd hc2m hcp
        · exact hmax c2 h hc2m
      · simpa [rollbackLoop, he] using hr
    · rcases truncAfter_eq_some he with ⟨i, hi, rfl⟩
      refine ⟨cp, by simp, truncAfter_eq_none.not_left.mp (by simp [he]), ?_,
        i, hi, by simp [rollbackLoop, he]⟩
      intro c2 hc2 _
      rcases List.mem_cons.mp hc2 with rfl | h
      · exact le_rfl
      · exact le_of_lt (hdesc.1 c2 h)

/-! ### Lemmas about `merge_headers` -/

theorem merge_headers_ok_snd {checkpoints : List Checkpoint} {first_height : Nat}
    {hashes : List Hash} {previous : Hash} {msg : List Header}
    (h : (merge_headers checkpoints first_height hashes previous msg).1 = true) :
    (merge_headers checkpoints first_height hashes previous msg).2
      = hashes ++ msg.map Header.hash := by
  induction msg generalizing hashes previous with
  | nil => simp [merge_headers]
  | cons b rest ih =>
    by_cases hc : b.previous_block_hash ≠ previous ∨
        validate b.hash (next_height first_height hashes) checkpoints = false
    · rw [merge_headers, if_pos hc] at h
      simp at h
    · rw [merge_headers, if_neg hc] at h ⊢
      rw [ih h, List.append_assoc]
      rfl

theorem merge_headers_ne_nil {checkpoints : List Checkpoint} {first_height : Nat}
    {hashes : List Hash} {previous : Hash} (msg : List Header)
    (h : hashes ≠ []) :
    (merge_headers checkpoints first_height hashes previous msg).2 ≠ [] := by
  induction msg generalizing hashes previous with
  | nil => simpa [merge_headers] using h
  | cons b rest ih =>
    by_cases hc : b.previous_block_hash ≠ previous ∨
        validate b.hash (next_height first_height hashes) checkpoints = false
    · rw [merge_headers, if_pos hc]
      exact rollback_ne_nil h
    · rw [merge_headers, if_neg hc]
      exact ih (by simp)

theorem merge_headers_fail_rollback {checkpoints : List Checkpoint}
    {first_height : Nat} {hashes : List Hash} {previous : Hash}
    {msg : List Header}
    (h : (merge_headers checkpoints first_height hashes previous msg).1 = false) :
    ∃ M, (merge_headers checkpoints first_height hashes previous msg).2
      = rollback checkpoints (hashes ++ M) := by
  induction msg generalizing hashes previous with
  | nil => simp [merge_headers] at h
  | cons b rest ih =>
    by_cases hc : b.previous_block_hash ≠ previous ∨
        validate b.hash (next_height first_height hashes) checkpoints = false
    · rw [merge_headers, if_pos hc]
      exact ⟨[], by simp⟩
    · rw [merge_headers, if_neg hc] at h ⊢
      rcases ih h with ⟨M, hM⟩
      exact ⟨b.hash :: M, by simpa [List.append_assoc] using hM⟩

theorem merge_headers_chainFrom (n : Nat) :
    ∀ (p first_height : Nat) (hashes : List Hash),
    (merge_headers [] first_height hashes p (chainFrom p n)).1 = true := by
  induction n with
  | zero => intro p fh hashes; rfl
  | succ n ih =>
    intro p fh hashes
    rw [chainFrom, merge_headers, if_neg (by simp [validate])]
    exact ih (p + 1) fh (hashes ++ [p + 1])

theorem chainFrom_length (p n : Nat) : (chainFrom p n).length = n := by
  induction n generalizing p with
  | zero => rfl
  | succ n ih => simp [chainFrom, ih]

/-! ### Unfolding `handle_receive` on a live channel -/

theorem handle_receive_eq (checkpoints : List Checkpoint)
    (first_height target_height : Nat) (hashes : List Hash) (msg : List Header) :
    handle_receive false Code.success checkpoints first_height target_height hashes msg
      = (if (merge_headers checkpoints first_height hashes (back hashes) msg).1 = false
         then (ReceiveAction.complete Code.previous_block_invalid,
               (merge_headers checkpoints first_height hashes (back hashes) msg).2)
         else if full_headers ≤ msg.length
         then (ReceiveAction.sendGetHeaders,
               (merge_headers checkpoints first_height hashes (back hashes) msg).2)
         else if target_height < next_height first_height
                  (merge_headers checkpoints first_height hashes (back hashes) msg).2
         then (ReceiveAction.complete Code.success,
               (merge_headers checkpoints first_height hashes (back hashes) msg).2)
         else (ReceiveAction.complete Code.operation_failed,
               (merge_headers checkpoints first_height hashes (back hashes) msg).2)) :=
  rfl

theorem handle_receive_snd (checkpoints : List Checkpoint)
    (first_height target_height : Nat) (hashes : List Hash) (msg : List Header) :
    (handle_receive false Code.success checkpoints first_height target_height
        hashes msg).2
      = (merge_headers checkpoints first_height hashes (back hashes) msg).2 := by
  rw [handle_receive_eq]
  split
  · rfl
  · split
    · rfl
    · split <;> rfl

/-! ### The claims -/

/-- C1: when a successfully merged headers message is shorter than the full
batch, the protocol completes with `success` iff
`next_height = first_height + |HashList|` (over the merged list) exceeds
`target_height`, and with `operation_failed` otherwise; `target_height` is
fixed at construction as `max(last_checkpoint.height, first_height +
|HashList| - 1)` over the initial list, and `first_height + |HashList| - 1`
when the checkpoint list is empty. -/
theorem C1_short_response (checkpoints : List Checkpoint)
    (first_height : Nat) (seed hashes : List Hash) (msg : List Header)
    (hmerge : (merge_headers checkpoints first_height hashes (back hashes) msg).1
        = true)
    (hshort : msg.length < full_headers) :
    (handle_receive false Code.success checkpoints first_height
        (target first_height seed checkpoints) hashes msg
      = (ReceiveAction.complete Code.success,
         (merge_headers checkpoints first_height hashes (back hashes) msg).2)
      ↔ target first_height seed checkpoints
          < next_height first_height
              (merge_headers checkpoints first_height hashes (back hashes) msg).2)
    ∧ (¬ target first_height seed checkpoints
          < next_height first_height
              (merge_headers checkpoints first_height hashes (back hashes) msg).2 →
        handle_receive false Code.success checkpoints first_height
            (target first_height seed checkpoints) hashes msg
          = (ReceiveAction.complete Code.operation_failed,
             (merge_headers checkpoints first_height hashes (back hashes) msg).2))
    ∧ target first_height seed checkpoints
        = (if checkpoints = [] then first_height + seed.length - 1
           else max (checkpoints.getLastD ⟨0, 0⟩).height
                 (first_height + seed.length - 1)) := by
  rw [handle_receive_eq, if_neg (by simp [hmerge]), if_neg (Nat.not_le.mpr hshort)]
  refine ⟨?_, ?_, ?_⟩
  · by_cases ht : target first_height seed checkpoints
        < next_height first_height
            (merge_headers checkpoints first_height hashes (back hashes) msg).2
    · simp [ht]
    · simp [ht]
  · intro ht
    rw [if_neg ht]
  · simp [target, List.isEmpty_iff]

/-- C1 witness: an empty short response over seed `[0]` with no checkpoints
completes with `success` (target 0 already exceeded). -/
theorem C1_short_response_w :
    handle_receive false Code.success [] 0 (target 0 [0] []) [0] []
      = (ReceiveAction.complete Code.success,
         (merge_headers [] 0 [0] (back [0]) []).2) :=
  ((C1_short_response [] 0 [0] [0] [] (by decide) (by decide)).1).mpr (by decide)

/-- C2: a header failing the linkage or checkpoint check makes the attempt
complete with `previous_block_invalid` after a rollback of the (partially
extended) list; with checkpoints sorted ascending by height, rollback
truncates the list to end immediately after the first element matching the
highest-height checkpoint hash present, and to a single element when no
checkpoint hash is present. -/
theorem C2_failure_rollback (checkpoints : List Checkpoint)
    (first_height target_height : Nat) (hashes : List Hash) (msg : List Header)
    (hsorted : checkpoints.Pairwise (fun a b => a.height < b.height)) :
    ((merge_headers checkpoints first_height hashes (back hashes) msg).1 = false →
      handle_receive false Code.success checkpoints first_height target_height
          hashes msg
        = (ReceiveAction.complete Code.previous_block_invalid,
           (merge_headers checkpoints first_height hashes (back hashes) msg).2))
    ∧ (∀ previous,
        (merge_headers checkpoints first_height hashes previous msg).1 = false →
        ∃ M, (merge_headers checkpoints first_height hashes previous msg).2
          = rollback checkpoints (hashes ++ M))
    ∧ (∀ L : List Hash,
        ((∀ cp ∈ checkpoints, cp.hash ∉ L) → rollback checkpoints L = L.take 1)
        ∧ (∀ cp0 ∈ checkpoints, cp0.hash ∈ L →
            ∃ cp ∈ checkpoints, cp.hash ∈ L
              ∧ (∀ cp2 ∈ checkpoints, cp2.hash ∈ L → cp2.height ≤ cp.height)
              ∧ ∃ i, findIdxO (fun x => x == cp.hash) L = some i
                  ∧ rollback checkpoints L = L.take (i + 1))) := by
  refine ⟨fun hf => ?_, fun previous hf => merge_headers_fail_rollback hf, fun L => ⟨?_, ?_⟩⟩
  · rw [handle_receive_eq, if_pos hf]
  · intro hnone
    exact rollbackLoop_of_none fun cp hcp => hnone cp (List.mem_reverse.mp hcp)
  · intro cp0 h0 h0m
    have hdesc : checkpoints.reverse.Pairwise (fun a b => b.height < a.height) := by
      rw [List.pairwise_reverse]
      exact hsorted
    rcases rollbackLoop_of_mem hdesc (List.mem_reverse.mpr h0) h0m with
      ⟨cp, hcp, hcpm, hmax, i, hi, hr⟩
    exact ⟨cp, List.mem_reverse.mp hcp, hcpm,
      fun c2 hc2 hm2 => hmax c2 (List.mem_reverse.mpr hc2) hm2, i, hi, hr⟩

/-- C2 witness: a header whose parent hash does not match the seed makes
the receive handler complete with `previous_block_invalid`. -/
theorem C2_failure_rollback_w :
    handle_receive false Code.success [] 0 0 [0]
        [{ previous_block_hash := 1, hash := 9 }]
      = (ReceiveAction.complete Code.previous_block_invalid,
         (merge_headers [] 0 [0] (back [0])
           [{ previous_block_hash := 1, hash := 9 }]).2) :=
  (C2_failure_rollback [] 0 0 [0] [{ previous_block_hash := 1, hash := 9 }]
    List.Pairwise.nil).1 (by decide)

/-- C3 counterexample: the code loops on `message.elements.size() >=
full_headers` (src/src/protocol_header_sync.cpp:191), not on equality with
2000, so a successfully merged message of 2001 linked headers also triggers
another `get_headers` — refuting "if and only if the message contained
exactly 2000 headers". -/
theorem C3_full_batch_cx :
    (merge_headers [] 0 [0] (back [0]) (chainFrom 0 2001)).1 = true
    ∧ (handle_receive false Code.success [] 0 2001 [0] (chainFrom 0 2001)).1
        = ReceiveAction.sendGetHeaders
    ∧ (chainFrom 0 2001).length ≠ 2000 := by
  have hm : (merge_headers [] 0 [0] (back [0]) (chainFrom 0 2001)).1 = true :=
    merge_headers_chainFrom 2001 0 0 [0]
  refine ⟨hm, ?_, by rw [chainFrom_length]; decide⟩
  rw [handle_receive_eq, if_neg (by simp [hm]),
    if_pos (by rw [chainFrom_length]; decide)]

/-- C3 amended: after a successful merge the protocol issues another
`get_headers` iff the message contained at least `full_headers` (2000)
headers; any shorter successfully merged message completes the attempt. -/
theorem C3_full_batch (checkpoints : List Checkpoint)
    (first_height target_height : Nat) (hashes : List Hash) (msg : List Header)
    (hmerge : (merge_headers checkpoints first_height hashes (back hashes) msg).1
        = true) :
    (handle_receive false Code.success checkpoints first_height target_height
        hashes msg).1
      = ReceiveAction.sendGetHeaders ↔ full_headers ≤ msg.length := by
  rw [handle_receive_eq, if_neg (by simp [hmerge])]
  by_cases hlen : full_headers ≤ msg.length
  · simp [hlen]
  · rw [if_neg hlen]
    constructor
    · intro h
      exfalso
      revert h
      split <;> simp
    · intro h
      exact absurd h hlen

/-- C3 witness: an empty successfully merged message does not trigger
another request. -/
theorem C3_full_batch_w :
    (handle_receive false Code.success [] 0 5 [0] ([] : List Header)).1
        = ReceiveAction.sendGetHeaders
      ↔ full_headers ≤ ([] : List Header).length :=
  C3_full_batch [] 0 5 [0] [] (by decide)

theorem sessionRun_iff (quorum : Nat) (codes : List Code) :
    ∀ votes, votes < quorum →
      (sessionRun quorum votes codes = true ↔ quorum ≤ votes + countSuccess codes) := by
  induction codes with
  | nil =>
    intro votes hv
    simp [sessionRun, countSuccess]
    omega
  | cons ec rest ih =>
    intro votes hv
    by_cases hec : ec = Code.success
    · subst hec
      by_cases hq : votes + 1 < quorum
      · have hr : handle_complete Code.success votes quorum
            = (votes + 1, SessionAction.redial) := by
          simp [handle_complete, hq]
        rw [sessionRun, hr]
        simp only [eq_self_iff_true, if_true]
        rw [ih (votes + 1) hq]
        simp [countSuccess]
        omega
      · have hr : handle_complete Code.success votes quorum
            = (votes + 1, SessionAction.completeSession) := by
          simp [handle_complete, hq]
        rw [sessionRun, hr]
        simp [countSuccess]
        omega
    · have hr : handle_complete ec votes quorum = (votes, SessionAction.redial) := by
        simp [handle_complete, hec]
      rw [sessionRun, hr]
      simp only [eq_self_iff_true, if_true]
      rw [ih votes hv]
      simp [countSuccess, hec]

/-- C4: starting from zero votes, the block-sync session reports `success`
exactly when the cumulative number of peer completions carrying `success`
reaches the quorum; a completion carrying an error leaves the count
untouched and triggers a redial. -/
theorem C4_quorum (quorum : Nat) (hq : 0 < quorum) (codes : List Code) :
    (sessionRun quorum 0 codes = true ↔ quorum ≤ countSuccess codes)
    ∧ (∀ ec votes, ec ≠ Code.success →
        handle_complete ec votes quorum = (votes, SessionAction.redial)) := by
  constructor
  · simpa using sessionRun_iff quorum codes 0 hq
  · intro ec votes hec
    simp [handle_complete, hec]

/-- C4 witness: with quorum 1 a single successful completion finishes the
session. -/
theorem C4_quorum_w : sessionRun 1 0 [Code.success] = true :=
  ((C4_quorum 1 (by decide) [Code.success]).1).mpr (by decide)

theorem size_t_sub_eq {a b : Nat} (hle : b ≤ a) (ha : a < 2 ^ 64) :
    size_t_sub a b = a - b := by
  unfold size_t_sub
  omega

/-- C5: on a one-second tick (a timer event carrying `success` or
`channel_timeout`), `current_second_` is incremented and the protocol
completes with `channel_timeout` iff the rate
`(|HashList| - start_size) / current_second` is below the minimum;
otherwise the timer is reset.  Consequently, if fewer than
`minimum_rate * T` hashes were added by the tick at second `T`, that tick
completes with `channel_timeout`. -/
theorem C5_rate_eviction (ec : Code)
    (size start_size minimum_rate current_second : Nat)
    (htick : ec = Code.success ∨ ec = Code.channel_timeout)
    (hle : start_size ≤ size) (hsize : size < 2 ^ 64) :
    (handle_event ec size start_size minimum_rate current_second).1
        = current_second + 1
    ∧ ((handle_event ec size start_size minimum_rate current_second).2
        = TimerAction.complete Code.channel_timeout
        ↔ (size - start_size) / (current_second + 1) < minimum_rate)
    ∧ (minimum_rate ≤ (size - start_size) / (current_second + 1) →
        (handle_event ec size start_size minimum_rate current_second).2
          = TimerAction.reset_timer)
    ∧ (size - start_size < minimum_rate * (current_second + 1) →
        (handle_event ec size start_size minimum_rate current_second).2
          = TimerAction.complete Code.channel_timeout) := by
  have hstop : ¬ ec = Code.channel_stopped := by
    rcases htick with rfl | rfl <;> simp
  have hother : ¬ (ec ≠ Code.success ∧ ec ≠ Code.channel_timeout) := by
    rcases htick with rfl | rfl <;> simp
  have hrate : current_rate size start_size (current_second + 1)
      = (size - start_size) / (current_second + 1) := by
    unfold current_rate
    rw [size_t_sub_eq hle hsize]
  rw [handle_event, if_neg hstop, if_neg hother]
  by_cases hlt : current_rate size start_size (current_second + 1) < minimum_rate
  · rw [if_pos hlt]
    rw [hrate] at hlt
    refine ⟨rfl, by simp [hlt], fun h => absurd hlt (by omega), fun _ => rfl⟩
  · rw [if_neg hlt]
    rw [hrate] at hlt
    refine ⟨rfl, by simp [hlt], fun _ => rfl, fun hlow => ?_⟩
    exfalso
    exact hlt ((Nat.div_lt_iff_lt_mul (Nat.succ_pos current_second)).mpr hlow)

/-- C5 witness: spec scenario S5 — 30 hashes after the tick at second 5
against minimum rate 10 evicts the channel. -/
theorem C5_rate_eviction_w :
    (handle_event Code.success 30 0 10 4).2
      = TimerAction.complete Code.channel_timeout :=
  (C5_rate_eviction Code.success 30 0 10 4 (Or.inl rfl) (by decide)
    (by decide)).2.2.2 (by decide)

/-- C10: on every tick the rate computation inside `handle_event` divides
by `current_second_ + 1`, which is positive, so the integer division in
`current_rate` is well-defined at every call site. -/
theorem C10_rate_divisor (ec : Code)
    (size start_size minimum_rate current_second : Nat)
    (htick : ec = Code.success ∨ ec = Code.channel_timeout) :
    0 < current_second + 1
    ∧ handle_event ec size start_size minimum_rate current_second
        = (if current_rate size start_size (current_second + 1) < minimum_rate
           then (current_second + 1, TimerAction.complete Code.channel_timeout)
           else (current_second + 1, TimerAction.reset_timer)) := by
  have hstop : ¬ ec = Code.channel_stopped := by
    rcases htick with rfl | rfl <;> simp
  have hother : ¬ (ec ≠ Code.success ∧ ec ≠ Code.channel_timeout) := by
    rcases htick with rfl | rfl <;> simp
  refine ⟨Nat.succ_pos current_second, ?_⟩
  rw [handle_event, if_neg hstop, if_neg hother]

/-- C10 witness: the divisor used on the first tick is 1. -/
theorem C10_rate_divisor_w :
    handle_event Code.success 0 0 0 0
      = (if current_rate 0 0 1 < 0 then (1, TimerAction.complete Code.channel_timeout)
         else (1, TimerAction.reset_timer)) :=
  (C10_rate_divisor Code.success 0 0 0 0 (Or.inl rfl)).2

theorem handle_complete_eq (c : Code) (votes quorum : Nat) :
    handle_complete c votes quorum
      = (if c = Code.success then
           (if votes + 1 < quorum then (votes + 1, SessionAction.redial)
            else (votes + 1, SessionAction.completeSession))
         else (votes, SessionAction.redial)) := by
  by_cases hc : c = Code.success
  · subst hc
    by_cases hv : votes + 1 < quorum
    · simp [handle_complete, hv]
    · simp [handle_complete, hv]
  · simp [handle_complete, hc]

theorem bsStep_inv {quorum : Nat} {st : BsState} (e : BsEvent)
    (h1 : st.inFlight ≤ 1) (h0 : st.inFlight = 0 → quorum ≤ st.votes) :
    (bsStep quorum st e).inFlight ≤ 1
    ∧ ((bsStep quorum st e).inFlight = 0 → quorum ≤ (bsStep quorum st e).votes) := by
  by_cases hz : st.inFlight = 0
  · simp only [bsStep, if_pos hz]
    exact ⟨h1, h0⟩
  · rcases e with _ | c
    · simp only [bsStep, if_neg hz]
      exact ⟨by omega, by omega⟩
    · simp only [bsStep, if_neg hz, handle_complete_eq]
      by_cases hc : c = Code.success
      · by_cases hv : st.votes + 1 < quorum
        · refine ⟨?_, ?_⟩ <;> simp [hc, hv] <;> omega
        · refine ⟨?_, ?_⟩ <;> simp [hc, hv] <;> omega
      · refine ⟨?_, ?_⟩ <;> simp [hc] <;> omega

theorem bsRun_inv (quorum : Nat) (evs : List BsEvent) :
    (bsRun quorum evs).inFlight ≤ 1
    ∧ ((bsRun quorum evs).inFlight = 0 → quorum ≤ (bsRun quorum evs).votes) := by
  have h : ∀ st : BsState, st.inFlight ≤ 1 → (st.inFlight = 0 → quorum ≤ st.votes) →
      (evs.foldl (bsStep quorum) st).inFlight ≤ 1
      ∧ ((evs.foldl (bsStep quorum) st).inFlight = 0 →
          quorum ≤ (evs.foldl (bsStep quorum) st).votes) := by
    induction evs with
    | nil => exact fun st a b => ⟨a, b⟩
    | cons e rest ih =>
      intro st a b
      rcases bsStep_inv e a b with ⟨a2, b2⟩
      exact ih (bsStep quorum st e) a2 b2
  exact h bsInit (by decide) (fun hf => by simp [bsInit] at hf)

/-- C6 counterexample: after a failed dial followed by a failed peer sync
the block-sync session still has exactly one connection attempt in flight —
at no point does it keep multiple channels in flight at the same time (the
source states "This session does not support concurrent channels",
src/src/session_block_sync.cpp:93). -/
theorem C6_serial_cx :
    (bsRun 2 [BsEvent.connectFailed,
        BsEvent.protoComplete Code.channel_timeout]).inFlight = 1
    ∧ ¬ 2 ≤ (bsRun 2 [BsEvent.connectFailed,
        BsEvent.protoComplete Code.channel_timeout]).inFlight := by
  decide

/-- C6 amended: the block-sync session dials peers serially — it keeps at
most one connection attempt in flight — and replaces every failed or
completed channel with a new dial, so the in-flight attempt count stays at
one until the quorum is reached (it drops to zero only once
`quorum ≤ votes`). -/
theorem C6_serial (quorum : Nat) (evs : List BsEvent) :
    (bsRun quorum evs).inFlight ≤ 1
    ∧ ((bsRun quorum evs).inFlight = 0 → quorum ≤ (bsRun quorum evs).votes) :=
  bsRun_inv quorum evs

/-- C8: the hash list is never empty — rollback of a non-empty list keeps
at least one element, a successful merge appends the message's hashes (so
the length never decreases between rollbacks), any merge of a non-empty
list leaves it non-empty, and every state reachable by receiving messages
from a non-empty seed is non-empty. -/
theorem C8_nonempty (checkpoints : List Checkpoint)
    (first_height target_height : Nat) (hashes : List Hash)
    (h : hashes ≠ []) :
    rollback checkpoints hashes ≠ []
    ∧ (∀ previous msg,
        (merge_headers checkpoints first_height hashes previous msg).1 = true →
        (merge_headers checkpoints first_height hashes previous msg).2
            = hashes ++ msg.map Header.hash
          ∧ hashes.length
            ≤ (merge_headers checkpoints first_height hashes previous msg).2.length)
    ∧ (∀ previous msg,
        (merge_headers checkpoints first_height hashes previous msg).2 ≠ [])
    ∧ (∀ msgs,
        syncStates checkpoints first_height target_height hashes msgs ≠ []) := by
  refine ⟨rollback_ne_nil h, fun previous msg hm => ?_, 
    fun previous msg => merge_headers_ne_nil msg h, fun msgs => ?_⟩
  · have hsnd := merge_headers_ok_snd hm
    exact ⟨hsnd, by rw [hsnd]; simp⟩
  · have main : ∀ msgs hs, hs ≠ [] →
        syncStates checkpoints first_height target_height hs msgs ≠ [] := by
      intro msgs
      induction msgs with
      | nil => exact fun hs hne => hne
      | cons m rest ih =>
        intro hs hne
        show syncStates checkpoints first_height target_height
          ((handle_receive false Code.success checkpoints first_height
            target_height hs m).2) rest ≠ []
        apply ih
        rw [handle_receive_snd]
        exact merge_headers_ne_nil m hne
    exact main msgs hashes h

/-- C8 witness: from the seed `[0]` every receive sequence keeps the list
non-empty. -/
theorem C8_nonempty_w :
    syncStates [] 0 0 [0] [[{ previous_block_hash := 1, hash := 9 }]] ≠ [] :=
  (C8_nonempty [] 0 0 [0] (by decide)).2.2.2
    [[{ previous_block_hash := 1, hash := 9 }]]

/-- C9 counterexample: the comparison `command == "\0x03"` cuts the
literal at its embedded NUL, so it compares against the empty string — the
empty input line shuts the node down although it equals neither the 4-byte
string NUL,'x','0','3' nor (after trimming) "stop", and the line that
really consists of those 4 bytes is treated as an address query. -/
theorem C9_console_cx :
    consoleStep [] = ConsoleAction.shutdown
    ∧ ¬ (([] : List Char) = stopLiteral ∨ trim_copy [] = stopWord)
    ∧ consoleStep stopLiteral = ConsoleAction.query (trim_copy stopLiteral)
    ∧ (stopLiteral = stopLiteral ∨ trim_copy stopLiteral = stopWord) := by
  refine ⟨by decide, by decide, by decide, Or.inl rfl⟩

/-- C9 amended: the console loop terminates (initiating shutdown) iff the
raw input line is empty (the `"\0x03"` literal, cut at its embedded NUL by
the `std::string == const char*` comparison, is the empty string) or the
whitespace-trimmed line equals "stop"; every other line is treated as a
payment-address query over the trimmed text. -/
theorem C9_stop_condition (command : List Char) :
    consoleStep command
      = if command = [] ∨ trim_copy command = stopWord
        then ConsoleAction.shutdown
        else ConsoleAction.query (trim_copy command) := by
  have hc : cString stopLiteral = [] := rfl
  unfold consoleStep isStopCommand
  rw [hc]
  by_cases h1 : command = []
  · simp [h1]
  · by_cases h2 : trim_copy command = stopWord
    · simp [h1, h2]
    · simp [h1, h2]
